import Mathlib

/-!
Shallow embedding of `src/main.py`, a FastAPI service that enriches
competitor rows in a Supabase table with OpenAI-generated loyalty-program
summaries.

External collaborators (the OpenAI completion endpoint and the Supabase
store) are modelled by an environment `Env`: the completion call is an
oracle from (model, messages) to a result, and store calls can be made to
fail through injected flags.  A failing store call is modelled as leaving
the table unchanged.  Every operation returns, besides its result, the
final table state and a trace of the external calls it issued, so that
claims about "never invokes the Completion Client" or about ordering are
statements about the trace.
-/

namespace ProgramSummarizer

/-- A row of the `competitors` table.  `id`, `competitor_name` and
`program_summary` are the columns the service touches; `otherColumns`
stands for whatever further columns the external table may carry, so that
frame claims about writes can be stated. -/
structure Competitor where
  id : Int
  competitor_name : String
  program_summary : Option String
  otherColumns : List (String × String)
deriving DecidableEq

/-- The pydantic `CompetitorResponse` model from `src/main.py`. -/
structure CompetitorResponse where
  id : Int
  competitor_name : String
  program_summary : Option String
deriving DecidableEq

/-- One chat message sent to the completion endpoint. -/
structure ChatMessage where
  role : String
  content : String
deriving DecidableEq

/-- The `message` part of a returned choice. -/
structure ChoiceMessage where
  content : String
deriving DecidableEq

/-- One choice of a chat completion response. -/
structure Choice where
  message : ChoiceMessage
deriving DecidableEq

/-- The completion response: `response.choices`. -/
structure ChatCompletion where
  choices : List Choice
deriving DecidableEq

/-- The competitors table, as the Record Store holds it. -/
abbrev Store := List Competitor

/-- External calls issued while handling a request. -/
inductive Event where
  | selectById (cid : Int)
  | selectNull
  | completionCall (competitor_name : String)
  | storeWrite (cid : Int) (summary : String)
deriving DecidableEq

/-- The environment: the completion oracle and fault injection for the
store calls.  `updateFails cid` says the update call for that id errors. -/
structure Env where
  complete : String → List ChatMessage → Except String ChatCompletion
  selectByIdFails : Bool
  selectNullFails : Bool
  updateFails : Int → Bool

/-- The apostrophe character, used in the prompt template. -/
def apostrophe : String := String.singleton (Char.ofNat 39)

/-- The f-string prompt template of `get_loyalty_program_summary`,
including the indentation the triple-quoted Python literal carries. -/
def promptFor (competitor_name : String) : String :=
  "Research and provide a concise summary of " ++ competitor_name ++ apostrophe ++
    "s loyalty program.\n    Focus on key features like:\n    - Program name\n    - How points are earned\n    - Main benefits and rewards\n    - Special features\n    \n    Provide this with 3 key bullet points and then a single, well-formatted paragraph."

/-- The two messages sent to the completion endpoint. -/
def messagesFor (competitor_name : String) : List ChatMessage :=
  [⟨"system", "You are a helpful assistant that researches loyalty programs."⟩,
   ⟨"user", promptFor competitor_name⟩]

/-- `get_loyalty_program_summary` (src/main.py lines 48-70): one completion
call with model `gpt-4`; returns the first choice content, stripped.  An
empty `choices` list makes `response.choices[0]` raise IndexError. -/
def get_loyalty_program_summary (env : Env) (competitor_name : String) :
    Except String String × List Event :=
  match env.complete "gpt-4" (messagesFor competitor_name) with
  | Except.error e => (Except.error e, [Event.completionCall competitor_name])
  | Except.ok response =>
      match response.choices with
      | [] => (Except.error "list index out of range", [Event.completionCall competitor_name])
      | choice :: _ =>
          (Except.ok choice.message.content.trim, [Event.completionCall competitor_name])

/-- Effect of `supabase.table.update({program_summary: s}).eq(id, cid)` on
the table: set `program_summary` on every row whose id matches. -/
def applyWrite (st : Store) (cid : Int) (s : String) : Store :=
  st.map (fun r => if r.id == cid then { r with program_summary := some s } else r)

/-- `supabase.table.select(star).eq(id, cid).execute()`: the matching rows,
or an injected read error. -/
def selectById (env : Env) (st : Store) (cid : Int) : Except String (List Competitor) :=
  if env.selectByIdFails then Except.error "store read error"
  else Except.ok (st.filter (fun r => r.id == cid))

/-- `supabase.table.select(id, competitor_name).is_(program_summary, null)`:
the rows with a null summary, or an injected read error. -/
def selectNullSummary (env : Env) (st : Store) : Except String (List Competitor) :=
  if env.selectNullFails then Except.error "store read error"
  else Except.ok (st.filter (fun r => r.program_summary.isNone))

/-- `supabase.table.update(...).eq(id, cid).execute()`: on success returns
the affected rows together with the new table; an injected write error
leaves the table unchanged. -/
def updateSummary (env : Env) (st : Store) (cid : Int) (s : String) :
    Except String (List Competitor × Store) :=
  if env.updateFails cid then Except.error "store write error"
  else
    let st' := applyWrite st cid s
    Except.ok (st'.filter (fun r => r.id == cid), st')

/-- Projection to the pydantic response model. -/
def toResponse (r : Competitor) : CompetitorResponse :=
  ⟨r.id, r.competitor_name, r.program_summary⟩

/-- `update_competitor_summary` (src/main.py lines 72-86): generate, then
write, then return `response.data[0]` as a `CompetitorResponse`.  An empty
`data` list makes `response.data[0]` raise IndexError. -/
def update_competitor_summary (env : Env) (st : Store) (competitor_id : Int)
    (competitor_name : String) : Except String CompetitorResponse × Store × List Event :=
  match get_loyalty_program_summary env competitor_name with
  | (Except.error e, tr) => (Except.error e, st, tr)
  | (Except.ok summary, tr) =>
      match updateSummary env st competitor_id summary with
      | Except.error e =>
          (Except.error e, st, tr ++ [Event.storeWrite competitor_id summary])
      | Except.ok (rows, st') =>
          match rows with
          | [] =>
              (Except.error "list index out of range", st',
                tr ++ [Event.storeWrite competitor_id summary])
          | updated :: _ =>
              (Except.ok (toResponse updated), st',
                tr ++ [Event.storeWrite competitor_id summary])

/-- Response bodies the three endpoints can produce. -/
inductive Body where
  | record (r : CompetitorResponse)
  | detail (msg : String)
  | health (status : String)
  | noCompetitors (status : String)
  | batch (status : String) (total_processed : Nat)
      (updated_competitors : List CompetitorResponse)
deriving DecidableEq

/-- An HTTP response: status code and body. -/
structure HttpResult where
  status_code : Nat
  body : Body
deriving DecidableEq

/-- `GET /` (src/main.py lines 88-91). -/
def root (st : Store) : HttpResult × Store × List Event :=
  (⟨200, Body.health "API is running"⟩, st, [])

/-- The string form of the FastAPI `HTTPException(404, "Competitor not
found")`: `str(e)` is `"404: Competitor not found"`. -/
def notFoundText : String := "404: Competitor not found"

/-- `POST /update-single/{id}` (src/main.py lines 93-115).  Note the
`HTTPException(404)` raised for a missing row is itself caught by the
blanket `except Exception` clause of the same `try` block, which re-raises
it as `HTTPException(500, str(e))`; the embedding reproduces that. -/
def update_single_competitor (env : Env) (st : Store) (competitor_id : Int) :
    HttpResult × Store × List Event :=
  match selectById env st competitor_id with
  | Except.error e =>
      (⟨500, Body.detail e⟩, st, [Event.selectById competitor_id])
  | Except.ok data =>
      match data with
      | [] =>
          (⟨500, Body.detail notFoundText⟩, st, [Event.selectById competitor_id])
      | competitor :: _ =>
          match update_competitor_summary env st competitor_id competitor.competitor_name with
          | (Except.error e, st', tr) =>
              (⟨500, Body.detail e⟩, st', Event.selectById competitor_id :: tr)
          | (Except.ok updated, st', tr) =>
              (⟨200, Body.record updated⟩, st', Event.selectById competitor_id :: tr)

/-- The per-row loop of `POST /update-all` (src/main.py lines 133-139):
append on success, swallow and continue on failure. -/
def processRows (env : Env) : Store → List Competitor →
    List CompetitorResponse × Store × List Event
  | st, [] => ([], st, [])
  | st, competitor :: rest =>
      match update_competitor_summary env st competitor.id competitor.competitor_name with
      | (Except.ok updated, st', tr) =>
          let out := processRows env st' rest
          (updated :: out.1, out.2.1, tr ++ out.2.2)
      | (Except.error _, st', tr) =>
          let out := processRows env st' rest
          (out.1, out.2.1, tr ++ out.2.2)

/-- `POST /update-all` (src/main.py lines 117-149). -/
def update_all_competitors (env : Env) (st : Store) : HttpResult × Store × List Event :=
  match selectNullSummary env st with
  | Except.error e => (⟨500, Body.detail e⟩, st, [Event.selectNull])
  | Except.ok rows =>
      if rows.isEmpty then
        (⟨200, Body.noCompetitors "No competitors found needing updates"⟩, st,
          [Event.selectNull])
      else
        let out := processRows env st rows
        (⟨200, Body.batch "success" out.1.length out.1⟩, out.2.1,
          Event.selectNull :: out.2.2)

/-- The requests the HTTP surface accepts. -/
inductive Request where
  | health
  | updateSingle (cid : Int)
  | updateAll
deriving DecidableEq

/-- Dispatch of one request. -/
def handle (env : Env) (st : Store) : Request → HttpResult × Store × List Event
  | Request.health => root st
  | Request.updateSingle cid => update_single_competitor env st cid
  | Request.updateAll => update_all_competitors env st

/-- The table state after a sequence of requests. -/
def execAll (env : Env) : Store → List Request → Store
  | st, [] => st
  | st, r :: rs => execAll env (handle env st r).2.1 rs

/-- The generation result alone (first component of the generator). -/
def genResult (env : Env) (competitor_name : String) : Except String String :=
  (get_loyalty_program_summary env competitor_name).1

/-- Whether generation succeeds for a name. -/
def genOK (env : Env) (competitor_name : String) : Bool :=
  (genResult env competitor_name).isOk

/-- Success predicate for one row of the batch loop: generation succeeds
and the write call does not error.  (Presence of the id in the table is a
separate hypothesis where needed, since listed rows come from the table.) -/
def rowStepOK (env : Env) (r : Competitor) : Bool :=
  genOK env r.competitor_name && !(env.updateFails r.id)

/-- The external calls one row of the batch loop issues; independent of the
table state. -/
def rowTrace (env : Env) (r : Competitor) : List Event :=
  match genResult env r.competitor_name with
  | Except.error _ => [Event.completionCall r.competitor_name]
  | Except.ok s => [Event.completionCall r.competitor_name, Event.storeWrite r.id s]

/-- Recognizer for completion-call events. -/
def isCompletionCall : Event → Bool
  | Event.completionCall _ => true
  | _ => false

/-- Recognizer for store-write events. -/
def isStoreWrite : Event → Bool
  | Event.storeWrite _ _ => true
  | _ => false

/-- Frame relation between a table row before and after handling one
request with call trace `tr`: id, name and all other columns are
untouched, and if the row changed at all then only its `program_summary`
was set, by a store write aimed at exactly the id of that row. -/
def WriteOnlySummary (tr : List Event) (a b : Competitor) : Prop :=
  b.id = a.id ∧ b.competitor_name = a.competitor_name ∧
  b.otherColumns = a.otherColumns ∧
  (b ≠ a → ∃ s, b.program_summary = some s ∧ Event.storeWrite a.id s ∈ tr)

/-- A completion response with a single choice. -/
def okCompletion (text : String) : ChatCompletion := ⟨[⟨⟨text⟩⟩]⟩

/-- Environment where every external call succeeds. -/
def envOk : Env :=
  ⟨fun _ _ => Except.ok (okCompletion " A fine summary. "), false, false, fun _ => false⟩

/-- Environment where the completion call always errors. -/
def envGenFail : Env :=
  ⟨fun _ _ => Except.error "completion failed", false, false, fun _ => false⟩

/-- Environment where generation succeeds but every store update errors. -/
def envWriteFail : Env :=
  ⟨fun _ _ => Except.ok (okCompletion "S"), false, false, fun _ => true⟩

/-- Environment where generation fails exactly for the name Bravo. -/
def envOneBad : Env :=
  ⟨fun _ msgs =>
      if msgs = messagesFor "Bravo" then Except.error "completion failed"
      else Except.ok (okCompletion "S"),
    false, false, fun _ => false⟩

/-- Sample rows and store for concrete witnesses. -/
def rowAcme : Competitor := ⟨1, "Acme", none, []⟩

/-- Second sample row. -/
def rowBravo : Competitor := ⟨2, "Bravo", none, []⟩

/-- Third sample row. -/
def rowCara : Competitor := ⟨3, "Cara", none, []⟩

/-- A three-row table, all summaries null. -/
def threeRowStore : Store := [rowAcme, rowBravo, rowCara]

/-- A row whose summary is already set. -/
def rowDone : Competitor := ⟨4, "Delta", some "done", []⟩

/-- A one-row table with no null summary. -/
def doneStore : Store := [rowDone]

/-- The generator is its first component paired with one completion call. -/
theorem gls_eq (env : Env) (competitor_name : String) :
    get_loyalty_program_summary env competitor_name =
      (genResult env competitor_name, [Event.completionCall competitor_name]) := by
  unfold genResult get_loyalty_program_summary
  cases env.complete "gpt-4" (messagesFor competitor_name) with
  | error e => rfl
  | ok response =>
      cases h : response.choices with
      | nil => simp [h]
      | cons c cs => simp [h]

/-- Filtering the written table for the written id returns the matching
rows of the original table with the summary set. -/
theorem filter_applyWrite (st : Store) (cid : Int) (s : String) :
    (applyWrite st cid s).filter (fun r => r.id == cid) =
      (st.filter (fun r => r.id == cid)).map
        (fun r => { r with program_summary := some s }) := by
  induction st with
  | nil => rfl
  | cons a t ih =>
      simp only [applyWrite, List.map_cons, List.filter_cons, beq_iff_eq] at *
      by_cases h : a.id = cid
      · simp [h, ih]
      · simp [h, ih]

/-- Writes preserve the id column. -/
theorem applyWrite_map_id (st : Store) (cid : Int) (s : String) :
    (applyWrite st cid s).map (fun r => r.id) = st.map (fun r => r.id) := by
  simp only [applyWrite, List.map_map]
  apply List.map_congr_left
  intro a _
  by_cases h : a.id = cid <;> simp [h]

/-- Case normal form of the Enrichment Orchestrator. -/
theorem ucs_eq (env : Env) (st : Store) (cid : Int) (competitor_name : String) :
    update_competitor_summary env st cid competitor_name =
      match genResult env competitor_name with
      | Except.error e => (Except.error e, st, [Event.completionCall competitor_name])
      | Except.ok s =>
          if env.updateFails cid then
            (Except.error "store write error", st,
              [Event.completionCall competitor_name, Event.storeWrite cid s])
          else
            match (st.filter (fun r => r.id == cid)).map
                (fun r => { r with program_summary := some s }) with
            | [] =>
                (Except.error "list index out of range", applyWrite st cid s,
                  [Event.completionCall competitor_name, Event.storeWrite cid s])
            | u :: _ =>
                (Except.ok (toResponse u), applyWrite st cid s,
                  [Event.completionCall competitor_name, Event.storeWrite cid s]) := by
  unfold update_competitor_summary
  rw [gls_eq]
  cases hg : genResult env competitor_name with
  | error e => rfl
  | ok s =>
      simp only [updateSummary]
      by_cases hu : env.updateFails cid
      · simp [hu]
      · simp only [hu, Bool.false_eq_true, if_false]
        rw [filter_applyWrite]
        cases hr : (st.filter (fun r => r.id == cid)).map
            (fun r => { r with program_summary := some s }) with
        | nil => simp
        | cons u t => simp

/-- C10: the health endpoint returns status 200 with body
`{status: "API is running"}` and issues no external calls, whatever table
state any sequence of prior requests has produced. -/
theorem C10_health_constant (env : Env) (st : Store) (reqs : List Request) :
    root (execAll env st reqs) =
      (⟨200, Body.health "API is running"⟩, execAll env st reqs, []) := rfl

/-- C1 (code bug): for an id absent from the table, the endpoint answers
with status 500 carrying the stringified 404 exception as detail, not with
status 404 as the claim states, because the `HTTPException(404)` is caught
by the blanket `except Exception`; the Completion Client is indeed never
invoked. -/
theorem C1_unknown_id_bug :
    (update_single_competitor envOk [] 7).1 = ⟨500, Body.detail notFoundText⟩ ∧
    (update_single_competitor envOk [] 7).1.status_code ≠ 404 ∧
    (update_single_competitor envOk [] 7).2.2.countP isCompletionCall = 0 :=
  ⟨rfl, by decide, rfl⟩

/-- C4: for a non-empty name the Summary Generator makes exactly one
completion call and returns the first choice content trimmed; it returns
the completion error unchanged when the call errors, and errors itself
when the response has no choices. -/
theorem C4_summary_generator (env : Env) (competitor_name : String)
    (hname : competitor_name ≠ "") :
    (∀ e, env.complete "gpt-4" (messagesFor competitor_name) = Except.error e →
        get_loyalty_program_summary env competitor_name =
          (Except.error e, [Event.completionCall competitor_name])) ∧
    (∀ response, env.complete "gpt-4" (messagesFor competitor_name) = Except.ok response →
        response.choices = [] →
        get_loyalty_program_summary env competitor_name =
          (Except.error "list index out of range",
            [Event.completionCall competitor_name])) ∧
    (∀ response c cs, env.complete "gpt-4" (messagesFor competitor_name) = Except.ok response →
        response.choices = c :: cs →
        get_loyalty_program_summary env competitor_name =
          (Except.ok c.message.content.trim, [Event.completionCall competitor_name])) := by
  refine ⟨?_, ?_, ?_⟩
  · intro e h
    simp [get_loyalty_program_summary, h]
  · intro response h hch
    simp [get_loyalty_program_summary, h, hch]
  · intro response c cs h hch
    simp [get_loyalty_program_summary, h, hch]

/-- Witness for C4 at a concrete environment and name. -/
theorem C4_witness :
    get_loyalty_program_summary envOk "Acme" =
      (Except.ok " A fine summary. ".trim, [Event.completionCall "Acme"]) :=
  (C4_summary_generator envOk "Acme" (by decide)).2.2
    (okCompletion " A fine summary. ") ⟨⟨" A fine summary. "⟩⟩ [] rfl rfl

/-- C2: when the row exists and generation fails, the single endpoint
answers 500, the table is exactly what it was, and no store write call is
issued at all. -/
theorem C2_gen_failure (env : Env) (st : Store) (cid : Int) (r : Competitor)
    (rest : List Competitor)
    (hsel : env.selectByIdFails = false)
    (hfound : st.filter (fun c => c.id == cid) = r :: rest)
    (hgen : genOK env r.competitor_name = false) :
    (update_single_competitor env st cid).1.status_code = 500 ∧
    (update_single_competitor env st cid).2.1 = st ∧
    ∀ cid2 s, Event.storeWrite cid2 s ∉ (update_single_competitor env st cid).2.2 := by
  have hge : ∃ e, genResult env r.competitor_name = Except.error e := by
    cases hg : genResult env r.competitor_name with
    | error e => exact ⟨e, rfl⟩
    | ok s => simp [genOK, hg, Except.isOk, Except.toBool] at hgen
  obtain ⟨e, hge⟩ := hge
  have hsel2 : selectById env st cid = Except.ok (r :: rest) := by
    simp [selectById, hsel, hfound]
  have hucs : update_competitor_summary env st cid r.competitor_name =
      (Except.error e, st, [Event.completionCall r.competitor_name]) := by
    rw [ucs_eq, hge]
  have hred : update_single_competitor env st cid =
      (⟨500, Body.detail e⟩, st,
        [Event.selectById cid, Event.completionCall r.competitor_name]) := by
    unfold update_single_competitor
    simp [hsel2, hucs]
  rw [hred]
  refine ⟨rfl, rfl, ?_⟩
  intro cid2 s h
  simp at h

/-- Witness for C2 at a concrete table and failing completion. -/
theorem C2_witness :
    (update_single_competitor envGenFail [rowAcme] 1).1.status_code = 500 ∧
    (update_single_competitor envGenFail [rowAcme] 1).2.1 = [rowAcme] ∧
    ∀ cid2 s,
      Event.storeWrite cid2 s ∉ (update_single_competitor envGenFail [rowAcme] 1).2.2 :=
  C2_gen_failure envGenFail [rowAcme] 1 rowAcme [] rfl (by decide) rfl

/-- C5: with no null-summary rows, the batch endpoint answers 200 with the
no-competitors status and issues zero completion calls and zero store
writes. -/
theorem C5_no_null_rows (env : Env) (st : Store)
    (hsel : env.selectNullFails = false)
    (hnone : st.filter (fun r => r.program_summary.isNone) = []) :
    update_all_competitors env st =
      (⟨200, Body.noCompetitors "No competitors found needing updates"⟩, st,
        [Event.selectNull]) ∧
    (update_all_competitors env st).2.2.countP isCompletionCall = 0 ∧
    (update_all_competitors env st).2.2.countP isStoreWrite = 0 := by
  have h1 : update_all_competitors env st =
      (⟨200, Body.noCompetitors "No competitors found needing updates"⟩, st,
        [Event.selectNull]) := by
    unfold update_all_competitors
    rw [show selectNullSummary env st = Except.ok [] by
      simp [selectNullSummary, hsel, hnone]]
    rfl
  exact ⟨h1, by rw [h1]; rfl, by rw [h1]; rfl⟩

/-- Witness for C5 at a table whose single row already has a summary. -/
theorem C5_witness :
    update_all_competitors envOk doneStore =
      (⟨200, Body.noCompetitors "No competitors found needing updates"⟩, doneStore,
        [Event.selectNull]) ∧
    (update_all_competitors envOk doneStore).2.2.countP isCompletionCall = 0 ∧
    (update_all_competitors envOk doneStore).2.2.countP isStoreWrite = 0 :=
  C5_no_null_rows envOk doneStore rfl (by decide)

/-- C6: after a successful generation the Orchestrator fails when the
write call errors, and also when the update matches no row; via the single
endpoint any Orchestrator error surfaces as 500 with the error message as
detail. -/
theorem C6_orchestrator_failure (env : Env) (st : Store) (cid : Int)
    (competitor_name : String) (s : String)
    (hgen : genResult env competitor_name = Except.ok s) :
    (env.updateFails cid = true →
        (update_competitor_summary env st cid competitor_name).1 =
          Except.error "store write error") ∧
    (env.updateFails cid = false → st.filter (fun c => c.id == cid) = [] →
        (update_competitor_summary env st cid competitor_name).1 =
          Except.error "list index out of range") ∧
    (∀ e r rest, env.selectByIdFails = false →
        st.filter (fun c => c.id == cid) = r :: rest →
        (update_competitor_summary env st cid r.competitor_name).1 = Except.error e →
        (update_single_competitor env st cid).1 = ⟨500, Body.detail e⟩) := by
  refine ⟨?_, ?_, ?_⟩
  · intro hu
    rw [ucs_eq, hgen]
    simp [hu]
  · intro hu hempty
    rw [ucs_eq, hgen]
    simp [hu, hempty]
  · intro e r rest hsel hfound hucs
    have hsel2 : selectById env st cid = Except.ok (r :: rest) := by
      simp [selectById, hsel, hfound]
    rcases ho : update_competitor_summary env st cid r.competitor_name with ⟨res, st2, tr⟩
    rw [ho] at hucs
    simp only at hucs
    subst hucs
    unfold update_single_competitor
    simp [hsel2, ho]

/-- Witness for C6 at a table with one row and failing write calls. -/
theorem C6_witness :
    (update_competitor_summary envWriteFail [rowAcme] 1 "Acme").1 =
      Except.error "store write error" ∧
    (update_single_competitor envWriteFail [rowAcme] 1).1 =
      ⟨500, Body.detail "store write error"⟩ :=
  ⟨(C6_orchestrator_failure envWriteFail [rowAcme] 1 "Acme" ("S".trim) rfl).1 rfl,
   (C6_orchestrator_failure envWriteFail [rowAcme] 1 "Acme" ("S".trim) rfl).2.2
     "store write error" rowAcme [] rfl (by decide) rfl⟩

/-- The frame relation holds reflexively. -/
theorem wos_refl (tr : List Event) (l : Store) :
    List.Forall₂ (WriteOnlySummary tr) l l := by
  rw [List.forall₂_same]
  intro a _
  exact ⟨rfl, rfl, rfl, fun h => absurd rfl h⟩

/-- The frame relation is monotone in the trace. -/
theorem wos_mono {t1 t2 : List Event} (hsub : ∀ e ∈ t1, e ∈ t2) {l1 l2 : Store}
    (h : List.Forall₂ (WriteOnlySummary t1) l1 l2) :
    List.Forall₂ (WriteOnlySummary t2) l1 l2 := by
  refine List.Forall₂.imp (fun a b hab => ?_) h
  obtain ⟨h1, h2, h3, h4⟩ := hab
  refine ⟨h1, h2, h3, fun hne => ?_⟩
  obtain ⟨s, hs, hm⟩ := h4 hne
  exact ⟨s, hs, hsub _ hm⟩

/-- The frame relation composes along concatenated traces. -/
theorem wos_comp (t1 t2 : List Event) :
    ∀ (l1 l2 l3 : Store), List.Forall₂ (WriteOnlySummary t1) l1 l2 →
      List.Forall₂ (WriteOnlySummary t2) l2 l3 →
      List.Forall₂ (WriteOnlySummary (t1 ++ t2)) l1 l3 := by
  intro l1
  induction l1 with
  | nil =>
      intro l2 l3 h12 h23
      cases h12
      cases h23
      exact List.Forall₂.nil
  | cons a la ih =>
      intro l2 l3 h12 h23
      cases h12 with
      | cons hab htail =>
          rename_i b lb
          cases h23 with
          | cons hbc htail2 =>
              rename_i c lc
              refine List.Forall₂.cons ?_ (ih lb lc htail htail2)
              obtain ⟨i1, n1, o1, p1⟩ := hab
              obtain ⟨i2, n2, o2, p2⟩ := hbc
              refine ⟨i2.trans i1, n2.trans n1, o2.trans o1, fun hne => ?_⟩
              by_cases hcb : c = b
              · subst hcb
                obtain ⟨s, hs, hm⟩ := p1 hne
                exact ⟨s, hs, List.mem_append_left _ hm⟩
              · obtain ⟨s, hs, hm⟩ := p2 hcb
                rw [i1] at hm
                exact ⟨s, hs, List.mem_append_right _ hm⟩

/-- A write relates the table to its updated state under the frame
relation, provided the trace records the write. -/
theorem wos_applyWrite (st : Store) (cid : Int) (s : String) (tr : List Event)
    (hm : Event.storeWrite cid s ∈ tr) :
    List.Forall₂ (WriteOnlySummary tr) st (applyWrite st cid s) := by
  induction st with
  | nil => exact List.Forall₂.nil
  | cons a t ih =>
      simp only [applyWrite, List.map_cons]
      refine List.Forall₂.cons ?_ ih
      by_cases h : a.id = cid
      · rw [if_pos (beq_iff_eq.mpr h)]
        exact ⟨rfl, rfl, rfl, fun _ => ⟨s, rfl, by rw [h]; exact hm⟩⟩
      · rw [if_neg (by simp [h])]
        exact ⟨rfl, rfl, rfl, fun hne => absurd rfl hne⟩

/-- One Orchestrator call only ever touches the summary of its target id. -/
theorem ucs_forall2 (env : Env) (st : Store) (cid : Int) (competitor_name : String) :
    List.Forall₂
      (WriteOnlySummary (update_competitor_summary env st cid competitor_name).2.2)
      st (update_competitor_summary env st cid competitor_name).2.1 := by
  rw [ucs_eq]
  cases hg : genResult env competitor_name with
  | error e => exact wos_refl _ _
  | ok s =>
      by_cases hu : env.updateFails cid
      · simp only [hu, if_true]
        exact wos_refl _ _
      · simp only [hu, Bool.false_eq_true, if_false]
        cases hf : (st.filter (fun r => r.id == cid)).map
            (fun r => { r with program_summary := some s }) with
        | nil =>
            exact wos_applyWrite st cid s _ (by simp)
        | cons u t =>
            exact wos_applyWrite st cid s _ (by simp)

/-- The batch loop only ever touches summaries, each by a write aimed at
the row it changes. -/
theorem processRows_forall2 (env : Env) :
    ∀ (rows : List Competitor) (st : Store),
      List.Forall₂ (WriteOnlySummary (processRows env st rows).2.2) st
        (processRows env st rows).2.1 := by
  intro rows
  induction rows with
  | nil => intro st; exact wos_refl _ _
  | cons r rest ih =>
      intro st
      rcases hu : update_competitor_summary env st r.id r.competitor_name with ⟨res, st1, tr1⟩
      have h1 : List.Forall₂ (WriteOnlySummary tr1) st st1 := by
        have h := ucs_forall2 env st r.id r.competitor_name
        rw [hu] at h
        exact h
      have hcomp := wos_comp tr1 (processRows env st1 rest).2.2 st st1
        (processRows env st1 rest).2.1 h1 (ih st1)
      cases res with
      | ok u =>
          simp only [processRows, hu]
          exact hcomp
      | error e =>
          simp only [processRows, hu]
          exact hcomp

/-- Writes do not change which ids a table holds. -/
theorem any_id_applyWrite (st : Store) (cid x : Int) (s : String) :
    (applyWrite st cid s).any (fun c => c.id == x) = st.any (fun c => c.id == x) := by
  induction st with
  | nil => rfl
  | cons a t ih =>
      simp only [applyWrite] at ih
      simp only [applyWrite, List.map_cons, List.any_cons]
      rw [ih]
      by_cases h : a.id = cid
      · rw [if_pos (beq_iff_eq.mpr h)]
      · rw [if_neg (by simp [h])]

/-- Behaviour of the batch loop over listed rows whose ids are all present
in the table: the returned ids are exactly those of the rows whose step
succeeds, in order; the table keeps its ids; a row of the table whose id
is not among the successfully processed ids keeps its summary; and the
call trace is the concatenation of the per-row traces in listing order. -/
theorem processRows_spec (env : Env) :
    ∀ (rows : List Competitor) (st : Store),
      (∀ r ∈ rows, st.any (fun c => c.id == r.id) = true) →
      (processRows env st rows).1.map (fun u => u.id) =
          (rows.filter (rowStepOK env)).map (fun r => r.id) ∧
      (processRows env st rows).2.1.map (fun c => c.id) = st.map (fun c => c.id) ∧
      (∀ b ∈ (processRows env st rows).2.1, ∃ a, a ∈ st ∧ b.id = a.id ∧
          (a.id ∉ (rows.filter (rowStepOK env)).map (fun r => r.id) →
            b.program_summary = a.program_summary)) ∧
      (processRows env st rows).2.2 = rows.flatMap (fun r => rowTrace env r) := by
  intro rows
  induction rows with
  | nil =>
      intro st _
      exact ⟨rfl, rfl, fun b hb => ⟨b, hb, rfl, fun _ => rfl⟩, rfl⟩
  | cons r rest ih =>
      intro st hids
      have hidr : st.any (fun c => c.id == r.id) = true := hids r (List.mem_cons_self r rest)
      have hids_rest : ∀ q ∈ rest, st.any (fun c => c.id == q.id) = true :=
        fun q hq => hids q (List.mem_cons_of_mem r hq)
      cases hg : genResult env r.competitor_name with
      | error e =>
          have hu0 : update_competitor_summary env st r.id r.competitor_name =
              (Except.error e, st, [Event.completionCall r.competitor_name]) := by
            rw [ucs_eq, hg]
          have htr : rowTrace env r = [Event.completionCall r.competitor_name] := by
            simp [rowTrace, hg]
          have hrOK : rowStepOK env r = false := by
            simp [rowStepOK, genOK, hg, Except.isOk, Except.toBool]
          have hfeq : (r :: rest).filter (rowStepOK env) = rest.filter (rowStepOK env) := by
            simp [List.filter_cons, hrOK]
          obtain ⟨ih1, ih2, ih3, ih4⟩ := ih st hids_rest
          simp only [processRows, hu0]
          rw [hfeq]
          exact ⟨ih1, ih2, ih3, by simp [List.flatMap_cons, htr, ih4]⟩
      | ok s =>
          by_cases hu : env.updateFails r.id = true
          · have hu0 : update_competitor_summary env st r.id r.competitor_name =
                (Except.error "store write error", st,
                  [Event.completionCall r.competitor_name, Event.storeWrite r.id s]) := by
              rw [ucs_eq, hg]
              simp [hu]
            have htr : rowTrace env r =
                [Event.completionCall r.competitor_name, Event.storeWrite r.id s] := by
              simp [rowTrace, hg]
            have hrOK : rowStepOK env r = false := by
              simp [rowStepOK, genOK, hg, Except.isOk, Except.toBool, hu]
            have hfeq : (r :: rest).filter (rowStepOK env) = rest.filter (rowStepOK env) := by
              simp [List.filter_cons, hrOK]
            obtain ⟨ih1, ih2, ih3, ih4⟩ := ih st hids_rest
            simp only [processRows, hu0]
            rw [hfeq]
            exact ⟨ih1, ih2, ih3, by simp [List.flatMap_cons, htr, ih4]⟩
          · have hu' : env.updateFails r.id = false := by
              rwa [Bool.not_eq_true] at hu
            have hfne : st.filter (fun c => c.id == r.id) ≠ [] := by
              intro h0
              rcases List.any_eq_true.mp hidr with ⟨x, hx, hxid⟩
              have hxf : x ∈ st.filter (fun c => c.id == r.id) :=
                List.mem_filter.mpr ⟨hx, hxid⟩
              rw [h0] at hxf
              exact absurd hxf (List.not_mem_nil x)
            cases hf : st.filter (fun c => c.id == r.id) with
            | nil => exact absurd hf hfne
            | cons a t =>
                have haid : a.id = r.id := by
                  have hmem : a ∈ st.filter (fun c => c.id == r.id) := by
                    rw [hf]
                    exact List.mem_cons_self a t
                  exact beq_iff_eq.mp (List.mem_filter.mp hmem).2
                have hu0 : update_competitor_summary env st r.id r.competitor_name =
                    (Except.ok (toResponse { a with program_summary := some s }),
                      applyWrite st r.id s,
                      [Event.completionCall r.competitor_name, Event.storeWrite r.id s]) := by
                  rw [ucs_eq, hg]
                  simp [hu', hf]
                have hrOK : rowStepOK env r = true := by
                  simp [rowStepOK, genOK, hg, Except.isOk, Except.toBool, hu']
                have htr : rowTrace env r =
                    [Event.completionCall r.competitor_name, Event.storeWrite r.id s] := by
                  simp [rowTrace, hg]
                have hids1 : ∀ q ∈ rest,
                    (applyWrite st r.id s).any (fun c => c.id == q.id) = true := by
                  intro q hq
                  rw [any_id_applyWrite]
                  exact hids_rest q hq
                obtain ⟨ih1, ih2, ih3, ih4⟩ := ih (applyWrite st r.id s) hids1
                have hfeq : (r :: rest).filter (rowStepOK env) =
                    r :: rest.filter (rowStepOK env) := by
                  simp [List.filter_cons, hrOK]
                simp only [processRows, hu0]
                rw [hfeq]
                refine ⟨?_, ?_, ?_, ?_⟩
                · simp only [List.map_cons, toResponse, ih1, haid]
                · rw [ih2, applyWrite_map_id]
                · intro b hb
                  obtain ⟨a1, ha1, hid1, hps1⟩ := ih3 b hb
                  simp only [applyWrite] at ha1
                  obtain ⟨a0, ha0, hfa⟩ := List.mem_map.mp ha1
                  have hfid : a1.id = a0.id := by
                    rw [← hfa]
                    by_cases h0 : a0.id = r.id
                    · simp [h0]
                    · simp [h0]
                  refine ⟨a0, ha0, by rw [hid1, hfid], fun hnot => ?_⟩
                  simp only [List.map_cons, List.mem_cons, not_or] at hnot
                  obtain ⟨hne, hnot2⟩ := hnot
                  have hfa0 : a1 = a0 := by
                    rw [← hfa]
                    simp [hne]
                  have hps := hps1 (by rw [hfid]; exact hnot2)
                  rw [hps, hfa0]
                · simp [List.flatMap_cons, htr, ih4]

/-- C7: whatever request is handled, every row of the table afterwards has
the same id, name and other columns as before; a row that changed at all
had only its `program_summary` set, by a store write call issued for
exactly the id of that row during the request. -/
theorem C7_writes_only_summary (env : Env) (st : Store) (req : Request) :
    List.Forall₂ (WriteOnlySummary (handle env st req).2.2) st
      (handle env st req).2.1 := by
  cases req with
  | health => exact wos_refl _ _
  | updateAll =>
      simp only [handle]
      unfold update_all_competitors
      cases hs : selectNullSummary env st with
      | error e => exact wos_refl _ _
      | ok rows =>
          by_cases he : rows.isEmpty
          · simp only [he, if_true]
            exact wos_refl _ _
          · simp only [he, Bool.false_eq_true, if_false]
            exact wos_mono (fun e hm => List.mem_cons_of_mem _ hm)
              (processRows_forall2 env rows st)
  | updateSingle cid =>
      simp only [handle]
      unfold update_single_competitor
      cases hs : selectById env st cid with
      | error e => exact wos_refl _ _
      | ok data =>
          cases data with
          | nil => exact wos_refl _ _
          | cons competitor tail =>
              rcases hu : update_competitor_summary env st cid competitor.competitor_name
                with ⟨res, st1, tr1⟩
              have h1 : List.Forall₂ (WriteOnlySummary tr1) st st1 := by
                have h := ucs_forall2 env st cid competitor.competitor_name
                rw [hu] at h
                exact h
              simp only [hu]
              cases res with
              | ok u =>
                  exact wos_mono (fun e hm => List.mem_cons_of_mem _ hm) h1
              | error e =>
                  exact wos_mono (fun e hm => List.mem_cons_of_mem _ hm) h1

/-- C8: the call trace of the batch endpoint is the listing call followed
by the per-row traces concatenated in the order the listing returned the
rows: the completion call and write of each row happen before anything of the
next row. -/
theorem C8_batch_sequential (env : Env) (st : Store)
    (hsel : env.selectNullFails = false) :
    (update_all_competitors env st).2.2 =
      Event.selectNull ::
        (st.filter (fun r => r.program_summary.isNone)).flatMap
          (fun r => rowTrace env r) := by
  have hok : selectNullSummary env st =
      Except.ok (st.filter (fun r => r.program_summary.isNone)) := by
    simp [selectNullSummary, hsel]
  unfold update_all_competitors
  simp only [hok]
  cases hrows : st.filter (fun r => r.program_summary.isNone) with
  | nil => rfl
  | cons r rest =>
      have hids : ∀ q ∈ r :: rest, st.any (fun c => c.id == q.id) = true := by
        intro q hq
        have hqf : q ∈ st.filter (fun c => c.program_summary.isNone) := by
          rw [hrows]
          exact hq
        have hqmem : q ∈ st := (List.mem_filter.mp hqf).1
        exact List.any_eq_true.mpr ⟨q, hqmem, beq_self_eq_true q.id⟩
      obtain ⟨_, _, _, h4⟩ := processRows_spec env (r :: rest) st hids
      simp only [List.isEmpty_cons, Bool.false_eq_true, if_false]
      rw [h4]

/-- Witness for C8 at a concrete table and environment. -/
theorem C8_witness :
    (update_all_competitors envOneBad threeRowStore).2.2 =
      Event.selectNull ::
        (threeRowStore.filter (fun r => r.program_summary.isNone)).flatMap
          (fun r => rowTrace envOneBad r) :=
  C8_batch_sequential envOneBad threeRowStore rfl

/-- C9: a success response of the batch endpoint reports
`total_processed` equal to the length of `updated_competitors`, and the
listed records are exactly (by id, in order) the listed rows whose
per-row step succeeded. -/
theorem C9_success_counts (env : Env) (st : Store)
    (hsel : env.selectNullFails = false)
    (hne : st.filter (fun r => r.program_summary.isNone) ≠ []) :
    ∃ ups, (update_all_competitors env st).1 =
        ⟨200, Body.batch "success" ups.length ups⟩ ∧
      ups.map (fun u => u.id) =
        ((st.filter (fun r => r.program_summary.isNone)).filter
            (rowStepOK env)).map (fun r => r.id) := by
  have hok : selectNullSummary env st =
      Except.ok (st.filter (fun r => r.program_summary.isNone)) := by
    simp [selectNullSummary, hsel]
  unfold update_all_competitors
  simp only [hok]
  cases hrows : st.filter (fun r => r.program_summary.isNone) with
  | nil => exact absurd hrows hne
  | cons r rest =>
      have hids : ∀ q ∈ r :: rest, st.any (fun c => c.id == q.id) = true := by
        intro q hq
        have hqf : q ∈ st.filter (fun c => c.program_summary.isNone) := by
          rw [hrows]
          exact hq
        have hqmem : q ∈ st := (List.mem_filter.mp hqf).1
        exact List.any_eq_true.mpr ⟨q, hqmem, beq_self_eq_true q.id⟩
      obtain ⟨h1, _, _, _⟩ := processRows_spec env (r :: rest) st hids
      simp only [List.isEmpty_cons, Bool.false_eq_true, if_false]
      exact ⟨(processRows env st (r :: rest)).1, rfl, h1⟩

/-- Witness for C9 at a concrete table and environment. -/
theorem C9_witness :
    ∃ ups, (update_all_competitors envOneBad threeRowStore).1 =
        ⟨200, Body.batch "success" ups.length ups⟩ ∧
      ups.map (fun u => u.id) =
        ((threeRowStore.filter (fun r => r.program_summary.isNone)).filter
            (rowStepOK envOneBad)).map (fun r => r.id) :=
  C9_success_counts envOneBad threeRowStore rfl (by decide)

/-- C3: if the per-row step fails for exactly one of the N listed rows,
the batch endpoint still answers 200, reports N-1 processed records, and
the summary of the failing row is still null afterwards. -/
theorem C3_one_row_fails (env : Env) (st : Store) (bad : Competitor)
    (hsel : env.selectNullFails = false)
    (hnodup : (st.map (fun c => c.id)).Nodup)
    (hmem_bad : bad ∈ st.filter (fun r => r.program_summary.isNone))
    (hbad : rowStepOK env bad = false)
    (hothers : ∀ q ∈ st.filter (fun r => r.program_summary.isNone), q ≠ bad →
        rowStepOK env q = true) :
    (update_all_competitors env st).1.status_code = 200 ∧
    (∃ ups, (update_all_competitors env st).1.body = Body.batch "success" ups.length ups ∧
      ups.length = (st.filter (fun r => r.program_summary.isNone)).length - 1) ∧
    (∀ b ∈ (update_all_competitors env st).2.1, b.id = bad.id →
        b.program_summary = none) := by
  have hok : selectNullSummary env st =
      Except.ok (st.filter (fun r => r.program_summary.isNone)) := by
    simp [selectNullSummary, hsel]
  have hne : st.filter (fun r => r.program_summary.isNone) ≠ [] := by
    intro h0
    rw [h0] at hmem_bad
    exact absurd hmem_bad (List.not_mem_nil bad)
  have hie : (st.filter (fun r => r.program_summary.isNone)).isEmpty = false := by
    cases hcase : st.filter (fun r => r.program_summary.isNone) with
    | nil => exact absurd hcase hne
    | cons x xs => rfl
  have hnodup_st : st.Nodup := List.Nodup.of_map _ hnodup
  have hrows_nodup : (st.filter (fun r => r.program_summary.isNone)).Nodup :=
    List.Nodup.filter _ hnodup_st
  have hbad_st : bad ∈ st := (List.mem_filter.mp hmem_bad).1
  have herase : (st.filter (fun r => r.program_summary.isNone)).filter (rowStepOK env) =
      (st.filter (fun r => r.program_summary.isNone)).erase bad := by
    rw [List.Nodup.erase_eq_filter hrows_nodup]
    apply List.filter_congr
    intro q hq
    by_cases hqb : q = bad
    · subst hqb
      simp [hbad]
    · simp [hothers q hq hqb, hqb]
  have hbadid : bad.id ∉
      ((st.filter (fun r => r.program_summary.isNone)).filter (rowStepOK env)).map
        (fun q => q.id) := by
    rw [herase]
    intro hmm
    obtain ⟨q, hq, hqid⟩ := List.mem_map.mp hmm
    have hq_rows : q ∈ st.filter (fun r => r.program_summary.isNone) :=
      List.mem_of_mem_erase hq
    have hq_st : q ∈ st := (List.mem_filter.mp hq_rows).1
    have heq : q = bad := List.inj_on_of_nodup_map hnodup hq_st hbad_st hqid
    rw [heq] at hq
    exact (((List.Nodup.mem_erase_iff hrows_nodup).mp hq).1) rfl
  have hids : ∀ q ∈ st.filter (fun r => r.program_summary.isNone),
      st.any (fun c => c.id == q.id) = true := by
    intro q hq
    have hqmem : q ∈ st := (List.mem_filter.mp hq).1
    exact List.any_eq_true.mpr ⟨q, hqmem, beq_self_eq_true q.id⟩
  obtain ⟨spec1, spec2, spec3, spec4⟩ :=
    processRows_spec env (st.filter (fun r => r.program_summary.isNone)) st hids
  have hred : update_all_competitors env st =
      (⟨200, Body.batch "success"
          (processRows env st (st.filter (fun r => r.program_summary.isNone))).1.length
          (processRows env st (st.filter (fun r => r.program_summary.isNone))).1⟩,
        (processRows env st (st.filter (fun r => r.program_summary.isNone))).2.1,
        Event.selectNull ::
          (processRows env st (st.filter (fun r => r.program_summary.isNone))).2.2) := by
    unfold update_all_competitors
    simp only [hok, hie, Bool.false_eq_true, if_false]
  have hlen : (processRows env st (st.filter (fun r => r.program_summary.isNone))).1.length =
      (st.filter (fun r => r.program_summary.isNone)).length - 1 := by
    have hl := congrArg List.length spec1
    simp only [List.length_map] at hl
    rw [hl, herase]
    exact List.length_erase_of_mem hmem_bad
  refine ⟨by rw [hred], ?_, ?_⟩
  · exact ⟨(processRows env st (st.filter (fun r => r.program_summary.isNone))).1,
      by rw [hred], hlen⟩
  · intro b hb hbid
    rw [hred] at hb
    obtain ⟨a, ha_st, hba, hps⟩ := spec3 b hb
    have haid : a.id = bad.id := by
      rw [← hba]
      exact hbid
    have heq : a = bad := List.inj_on_of_nodup_map hnodup ha_st hbad_st haid
    have hpres : b.program_summary = a.program_summary := by
      refine hps ?_
      rw [haid]
      exact hbadid
    rw [hpres, heq]
    exact Option.isNone_iff_eq_none.mp (List.mem_filter.mp hmem_bad).2

set_option maxRecDepth 8192 in
/-- Witness for C3: three null rows, generation fails exactly for the
second one. -/
theorem C3_witness :
    (update_all_competitors envOneBad threeRowStore).1.status_code = 200 ∧
    (∃ ups, (update_all_competitors envOneBad threeRowStore).1.body =
        Body.batch "success" ups.length ups ∧
      ups.length = (threeRowStore.filter (fun r => r.program_summary.isNone)).length - 1) ∧
    (∀ b ∈ (update_all_competitors envOneBad threeRowStore).2.1, b.id = rowBravo.id →
        b.program_summary = none) :=
  C3_one_row_fails envOneBad threeRowStore rowBravo rfl (by decide) (by decide)
    (by decide) (by decide)

end ProgramSummarizer
